import Mathlib

/-!
Shallow embedding of the geometry core of pyRouterJig (src/router.py and
src/serialize.py), over exact rational arithmetic.

Python `Decimal` values and Python floats are embedded as `ℚ` (Decimal is
exact decimal arithmetic; every float value is a rational).  The only
transcendental quantity, `math.tan(math.radians(angle))`, is embedded as an
explicit rational parameter `tanA` carried by the bit: the source converts
that float to a `Decimal` once and from then on computes with it exactly,
so every downstream computation is a rational function of `tanA`.

Machine-level conversions are modelled explicitly:
 * Python `int(x)` on a number truncates toward zero (`truncQ`);
 * Python `//` on ints is floor division, while on `Decimal` it truncates
   toward zero (`decFloorDiv`);
 * `Decimal.to_integral_value(rounding=ROUND_HALF_DOWN)` rounds to the
   nearest integer with ties toward zero (`roundHalfDown`);
 * `Decimal.quantize(D('0.0001'))` rounds to 4 decimal places with the
   default `ROUND_HALF_EVEN` (`quantize4`).

`utils.py` is not part of the given sources; the helpers used from it are
modelled from the spec where needed (see `mathRound`).
-/

namespace RouterJig

attribute [local semireducible] Rat.add Rat.mul Rat.inv Rat.sub Rat.ofScientific

instance exceptDecEq {e a : Type} [DecidableEq e] [DecidableEq a] :
    DecidableEq (Except e a) := fun x y =>
  match x, y with
  | .error u, .error v =>
    if h : u = v then isTrue (by rw [h]) else isFalse (by simp [h])
  | .error _, .ok _ => isFalse (by simp)
  | .ok _, .error _ => isFalse (by simp)
  | .ok u, .ok v =>
    if h : u = v then isTrue (by rw [h]) else isFalse (by simp [h])

/-- Truncation toward zero: the value of Python `int(x)` for a number `x`,
and of `Decimal` floor division after dividing. -/
def truncQ (x : ℚ) : ℤ := if 0 ≤ x then ⌊x⌋ else ⌈x⌉

/-- Modelled from the spec: `utils.math_round` (utils.py is not in the given
sources).  The spec's pass-synthesis step 2 calls it `round`; we model it as
mathematical rounding, halves up. -/
def mathRound (x : ℚ) : ℤ := ⌊x + 1/2⌋

/-- Python `Decimal` floor division `a // b`: the quotient truncated toward
zero (unlike `int` floor division). -/
def decFloorDiv (a b : ℚ) : ℚ := (truncQ (a / b) : ℚ)

/-- Embedding of `Decimal.to_integral_value(rounding=ROUND_HALF_DOWN)`: round to the
nearest integer, ties toward zero. -/
def roundHalfDown (x : ℚ) : ℤ := if 0 ≤ x then ⌈x - 1/2⌉ else -⌈-x - 1/2⌉

/-- The spec's reading of round-half-down in §4.1 / claim C2: round to the
nearest integer with ties toward the LOWER integer.  Agrees with
`roundHalfDown` on nonnegative arguments only. -/
def roundHalfLower (x : ℚ) : ℤ := ⌈x - 1/2⌉

/-- Embedding of `Decimal` rounding to nearest with ties to even, the default
rounding used by `quantize`. -/
def roundHalfEven (x : ℚ) : ℤ :=
  if x - ⌊x⌋ < 1/2 then ⌊x⌋
  else if 1/2 < x - ⌊x⌋ then ⌊x⌋ + 1
  else if Even ⌊x⌋ then ⌊x⌋ else ⌊x⌋ + 1

/-- Embedding of `x.quantize(D('0.0001'))`: round to four decimal places. -/
def quantize4 (x : ℚ) : ℚ := (roundHalfEven (x * 10000) : ℚ) / 10000

/-- Predicate: `x` is a whole multiple of the `0.0001` quantum used by
`adjoining_cuts`. -/
def IsGrid (x : ℚ) : Prop := ∃ n : ℤ, x * 10000 = (n : ℚ)

/-- State of `Router_Bit`: input attributes `width`, `depth`, `angle`, `bit_gentle`,
plus the embedded rational value `tanA` of
`Decimal(math.tan(math.radians(angle)))`, and the derived attributes
maintained by `reinit`. -/
structure RouterBit where
  width : ℚ
  depth : ℚ
  angle : ℚ
  tanA : ℚ
  bit_gentle : ℚ
  midline : ℚ
  depth_0 : ℚ
  width_f : ℚ
  gap : ℚ
  overhang : ℚ
deriving DecidableEq, Repr

/-- Embedding of `Router_Bit.reinit`: recompute the derived attributes from `width`,
`depth`, `angle` (through its tangent `tanA`). -/
def reinit (b : RouterBit) : RouterBit :=
  let width_f : ℚ := b.width
  if 0 < b.angle then
    let offset := b.depth * b.tanA
    let midline_f := width_f - offset
    let midline : ℚ := (roundHalfDown midline_f : ℤ)
    { b with width_f := width_f, midline := midline, gap := midline_f - midline,
             depth_0 := (width_f - midline) / b.tanA,
             overhang := (width_f - midline) / 2 }
  else
    let midline := width_f
    { b with width_f := width_f, midline := midline, gap := 0, depth_0 := b.depth,
             overhang := (width_f - midline) / 2 }

/-- Embedding of `Router_Bit.__init__`: store the inputs, then `reinit`. -/
def mkBit (width depth angle tanA gentle : ℚ) : RouterBit :=
  reinit { width := width, depth := depth, angle := angle, tanA := tanA,
           bit_gentle := gentle, midline := 0, depth_0 := 0, width_f := width,
           gap := 0, overhang := (width - 0) / 2 }

/-- The width value computed by `Router_Bit.set_width_from_string` from the
parse result: in metric mode a value ≤ 1 is taken to be inches and scaled by
`mm_per_inch` = 25.4. -/
def widthFromParse (metric : Bool) (v : ℚ) : ℚ :=
  if metric then (if v ≤ 1 then v * (127/5) else v) else v

/-- Embedding of `Router_Bit.set_width_from_string`.  The string parser
(`units.string_to_float` / `units.string_to_increments`) is abstracted as its
result: `none` models a parse exception.  The pair's boolean is `true` when
the source raises `Router_Exception`; the returned bit is the post-call state
(the source mutates only after all checks). -/
def setWidthS (b : RouterBit) (metric : Bool) (parsed : Option ℚ) :
    RouterBit × Bool :=
  match parsed with
  | none => (b, true)
  | some v =>
    if widthFromParse metric v ≤ 0 then (b, true)
    else if (2 * (⌊widthFromParse metric v / 2⌋ : ℚ) ≠ widthFromParse metric v ∨
        (⌊widthFromParse metric v⌋ : ℚ) ≠ widthFromParse metric v) ∧ b.angle = 0 then
      (b, true)
    else (reinit { b with width := widthFromParse metric v }, false)

/-- Embedding of `Router_Bit.set_depth_from_string`.  The source's
`round((self.width / 3.5) / math.tan(...) <= depth)` applies `round` to a
bool, so the guard is just the comparison itself. -/
def setDepthS (b : RouterBit) (parsed : Option ℚ) : RouterBit × Bool :=
  match parsed with
  | none => (b, true)
  | some depth =>
    if 0 < b.angle ∧ (b.width / (7/2)) / b.tanA ≤ depth then (b, true)
    else if depth ≤ 0 then (b, true)
    else (reinit { b with depth := depth }, false)

/-- Embedding of `Router_Bit.set_angle_from_string`.  Here `newTan` is the embedded value of
`math.tan(math.radians(angle))` for the new angle. -/
def setAngleS (b : RouterBit) (parsed : Option ℚ) (newTan : ℚ) :
    RouterBit × Bool :=
  match parsed with
  | none => (b, true)
  | some angle =>
    if angle = 0 ∧ (⌊b.width_f⌋ : ℚ) ≠ b.width_f then (b, true)
    else if angle < 0 then (b, true)
    else (reinit { b with angle := angle, tanA := newTan }, false)

/-- Outcome of a setter call: returned normally, raised `Router_Exception`,
or escaped with an exception that is NOT a `Router_Exception`. -/
inductive SetterOutcome where
  | ok
  | geomErr
  | otherErr
deriving DecidableEq, Repr

/-- Embedding of `Router_Bit.set_gentle_from_string`.  The user string `s` is
abstracted by the two partial views the source takes of it: `parsed` is the
result of `units.string_to_float(s)` (`none` models a parse exception, which
the source catches and turns into `Router_Exception`), and `decOfS` is the
result of `Decimal(s)` (`none` models `decimal.InvalidOperation`, which the
source does NOT catch: it is raised after validation, outside the
`try`/`except`).  A fractional string such as "1 1/2" — accepted by the
float parser per the source's own example strings — realizes
`parsed = some (3/2)` with `decOfS = none`.  The source assigns
`self.bit_gentle = D(s)` before `reinit`, so the stored value is the
`Decimal` reading of the raw string, not the parsed float. -/
def setGentleS (b : RouterBit) (parsed : Option ℚ) (decOfS : Option ℚ) :
    RouterBit × SetterOutcome :=
  match parsed with
  | none => (b, .geomErr)
  | some g =>
    if g < 1 ∨ 100 < g then (b, .geomErr)
    else
      match decOfS with
      | none => (b, .otherErr)
      | some d => (reinit { b with bit_gentle := d }, .ok)

/-- A cut interval on a board edge (`Cut.xmin` / `Cut.xmax`); the derived
pass list is kept alongside rather than inside the structure. -/
structure Cut where
  xmin : ℚ
  xmax : ℚ
deriving DecidableEq, Repr

/-- Value of `Cut.precision`, the fixed tolerance (0.01 increment). -/
def precision : ℚ := 1/100

/-- Error outcomes: `geometry` is `Router_Exception`; `crash` models an
uncaught Python exception (e.g. indexing an empty list); `fuel` means the
source's `while` loop did not terminate within the given bound. -/
inductive RErr where
  | geometry
  | crash
  | fuel
deriving DecidableEq, Repr

/-- Embedding of `Cut.validate`. -/
def validateCut (b : RouterBit) (boardWidth : ℚ) (c : Cut) : Except RErr Unit :=
  if c.xmax ≤ c.xmin then .error .geometry
  else if c.xmin < 0 then .error .geometry
  else if boardWidth < c.xmax then .error .geometry
  else if precision < b.width_f - (c.xmax - c.xmin) ∧ 0 < c.xmin ∧ c.xmax < boardWidth
  then .error .geometry
  else .ok ()

/-- The right-anchored seed pass `p0` of `Cut.make_router_passes`. -/
def seedP0 (boardWidth xmin xmax halfwidth cutpass : ℚ) : ℚ :=
  if xmax = boardWidth ∧ halfwidth < xmax - xmin then xmax + halfwidth - cutpass
  else (mathRound (xmax - halfwidth) : ℚ)

/-- The division used for `remainder // 2` inside the pass loop: Python's
`//` is floor division when `p0` (hence `remainder`) is an `int`
(the `math_round` branch of the seed), and truncating division when `p0` is
a `Decimal` (the right-edge branch). -/
def halveRem (dec : Bool) (r : ℚ) : ℚ :=
  if dec then decFloorDiv r 2 else (⌊r / 2⌋ : ℚ)

/-- One record-and-advance step of the `while` loop of
`Cut.make_router_passes` (the loop body with `remainder > 0` already
checked).  Returns the new `(p1, remainder, passes)`. -/
def passStep (dec : Bool) (boardWidth xmax halfwidth width_f cutpass p0 : ℚ)
    (p1 : ℚ) (passes : List ℤ) : ℚ × ℚ × List ℤ :=
  let r := p0 - p1
  let rec1 : ℚ × List ℤ :=
    if p0 ≠ p1 ∧ ((p1 + halfwidth) - xmax < precision ∨ xmax = boardWidth) then
      ((truncQ p1 : ℚ), passes ++ [truncQ p1])
    else (p1, passes)
  let p1a := rec1.1
  let passes1 := rec1.2
  let p1b := if r ≤ decFloorDiv (width_f * 2) 3 then p0 - halveRem dec r
             else p1a + cutpass
  let r1 := if r < decFloorDiv (width_f * 4) 5 then 0 else r
  (p1b, r1, passes1)

/-- The `while remainder > 0` loop of `Cut.make_router_passes`, run on
explicit fuel (`none` when the bound is exhausted: the source loop can fail
to terminate, e.g. when `cutpass = 0`). -/
def passLoop (dec : Bool) (boardWidth xmax halfwidth width_f cutpass p0 : ℚ) :
    ℕ → ℚ → ℚ → List ℤ → Option (List ℤ)
  | 0, _, _, _ => none
  | fuel + 1, p1, remainder, passes =>
    if 0 < remainder then
      let s := passStep dec boardWidth xmax halfwidth width_f cutpass p0 p1 passes
      passLoop dec boardWidth xmax halfwidth width_f cutpass p0 fuel s.1 s.2.1 s.2.2
    else some passes

/-- Ascending insertion used to model Python `sorted`. -/
def insertAsc (x : ℤ) : List ℤ → List ℤ
  | [] => [x]
  | y :: ys => if x ≤ y then x :: y :: ys else y :: insertAsc x ys

/-- Python `sorted` on an integer list. -/
def sortInts : List ℤ → List ℤ
  | [] => []
  | x :: xs => insertAsc x (sortInts xs)

/-- The final error check of `Cut.make_router_passes`: `true` when the pass
`p` triggers `Router_Exception` ("Bit width too large for this cut"). -/
def passBad (xmin xmax halfwidth boardWidth : ℚ) (p : ℤ) : Bool :=
  (decide (0 < xmin) && decide (precision < xmin - ((p : ℚ) - halfwidth))) ||
    (decide (xmax < boardWidth) && decide (precision < ((p : ℚ) + halfwidth) - xmax))

/-- The `cutpass` of `Cut.make_router_passes`:
`int((bit.width_f * bit.bit_gentle) / 100)` (the spec's `sub`). -/
def cutpassOf (b : RouterBit) : ℚ := (truncQ ((b.width_f * b.bit_gentle) / 100) : ℚ)

/-- The initial recording of `p0` in `Cut.make_router_passes`: record it when
it is on the board and does not overcut the left cut boundary (or the cut
starts at the left board edge). -/
def initPasses (boardWidth xmin xmax halfwidth p0 : ℚ) : List ℤ :=
  if xmax ≤ boardWidth ∧ (xmin - (p0 - halfwidth) < precision ∨ xmin = 0)
  then [truncQ p0] else []

/-- Embedding of `Cut.make_router_passes`: validate, seed `p0` and `p1`, run the loop, sort,
run the final check; returns the sorted pass list. -/
def makeRouterPasses (b : RouterBit) (boardWidth : ℚ) (c : Cut) (fuel : ℕ) :
    Except RErr (List ℤ) :=
  match validateCut b boardWidth c with
  | .error e => .error e
  | .ok _ =>
    match passLoop (decide (c.xmax = boardWidth ∧ b.width_f / 2 < c.xmax - c.xmin))
        boardWidth c.xmax (b.width_f / 2) b.width_f (cutpassOf b)
        (seedP0 boardWidth c.xmin c.xmax (b.width_f / 2) (cutpassOf b)) fuel
        ((mathRound (c.xmin + b.width_f / 2) : ℤ) : ℚ) (c.xmax - c.xmin)
        (initPasses boardWidth c.xmin c.xmax (b.width_f / 2)
          (seedP0 boardWidth c.xmin c.xmax (b.width_f / 2) (cutpassOf b))) with
    | none => .error .fuel
    | some ps =>
      if (sortInts ps).any (passBad c.xmin c.xmax (b.width_f / 2) boardWidth)
      then .error .geometry
      else .ok (sortInts ps)

/-- The geometry-relevant state of a `Board`: `width`, the extra reinforcement
thickness `dheight`, the `active` flag, and the cut lists assigned by the
stack assembly (each cut paired with its computed passes). -/
structure BoardB where
  width : ℚ
  dheight : ℚ
  active : Bool
  topCuts : Option (List (Cut × List ℤ)) := none
  bottomCuts : Option (List (Cut × List ℤ)) := none
deriving DecidableEq, Repr

/-- Value of `cuts[-1]`: the last cut of a nonempty list (head and tail given). -/
def lastCut : Cut → List Cut → Cut
  | c0, [] => c0
  | _, c1 :: rest => lastCut c1 rest

/-- Embedding of `adjoining_cuts(cuts, bit, board)`.  Result `none` models the source crashing on
an empty input list (`cuts[0]`). -/
def adjoiningCuts (cuts : List Cut) (b : RouterBit) (bd : BoardB) :
    Option (List Cut) :=
  match cuts with
  | [] => none
  | c0 :: rest =>
    let off := b.width_f - b.midline
    let first : List Cut :=
      if 0 < c0.xmin then
        let right := c0.xmin + off - bd.dheight
        if bd.dheight ≤ right - 0 then [⟨0, quantize4 right⟩] else []
      else []
    let mids : List Cut :=
      (List.zip (c0 :: rest) rest).map fun pc =>
        ⟨max 0 (pc.1.xmax - off + bd.dheight),
         min bd.width (pc.2.xmin + off - bd.dheight)⟩
    let lc := lastCut c0 rest
    let last : List Cut :=
      if lc.xmax < bd.width then
        let left := lc.xmax - off + bd.dheight
        let right : ℚ := bd.width
        if bd.dheight ≤ right - left then [⟨max 0 left, min bd.width right⟩] else []
      else []
    some (first ++ mids ++ last)

/-- Embedding of `Board.set_top_cuts`: compute the passes of every cut against this board,
then record the cuts. -/
def setTopCuts (b : RouterBit) (bd : BoardB) (cuts : List Cut) (fuel : ℕ) :
    Except RErr BoardB :=
  (cuts.mapM fun c => (makeRouterPasses b bd.width c fuel).map (fun ps => (c, ps))).map
    fun cps => { bd with topCuts := some cps }

/-- Embedding of `Board.set_bottom_cuts`. -/
def setBottomCuts (b : RouterBit) (bd : BoardB) (cuts : List Cut) (fuel : ℕ) :
    Except RErr BoardB :=
  (cuts.mapM fun c => (makeRouterPasses b bd.width c fuel).map (fun ps => (c, ps))).map
    fun cps => { bd with bottomCuts := some cps }

/-- The four-slot board stack: 0 = top, 1 = bottom, 2 = double,
3 = double-double. -/
structure Stack where
  b0 : BoardB
  b1 : BoardB
  b2 : BoardB
  b3 : BoardB
deriving DecidableEq, Repr

/-- One reinforcement-board stage of `cut_boards`: if the board is active,
derive its top cuts from `last` against `boards[0]`, then its bottom cuts
against itself; returns the updated board and the new `last`. -/
def doubleStage (b : RouterBit) (b0 : BoardB) (bd : BoardB) (last : List Cut)
    (fuel : ℕ) : Except RErr (BoardB × List Cut) :=
  if bd.active then
    match adjoiningCuts last b b0 with
    | none => .error .crash
    | some top =>
      match setTopCuts b bd top fuel with
      | .error e => .error e
      | .ok bd1 =>
        match adjoiningCuts top b bd1 with
        | none => .error .crash
        | some nlast =>
          match setBottomCuts b bd1 nlast fuel with
          | .error e => .error e
          | .ok bd2 => .ok (bd2, nlast)
  else .ok (bd, last)

/-- Embedding of `cut_boards(boards, bit, spacing)` with `spacing.cuts = cuts`: the fixed
pipeline top board → (double-double stage) → (double stage) → bottom board.
The source uses two independent `if` statements, so the double stage also
runs when the double-double stage ran. -/
def cutBoards (st : Stack) (b : RouterBit) (cuts : List Cut) (fuel : ℕ) :
    Except RErr Stack :=
  match setBottomCuts b st.b0 cuts fuel with
  | .error e => .error e
  | .ok b0a =>
    match doubleStage b b0a st.b3 cuts fuel with
    | .error e => .error e
    | .ok s3 =>
      match doubleStage b b0a st.b2 s3.2 fuel with
      | .error e => .error e
      | .ok s2 =>
        match adjoiningCuts s2.2 b st.b1 with
        | none => .error .crash
        | some top1 =>
          match setTopCuts b st.b1 top1 fuel with
          | .error e => .error e
          | .ok b1a => .ok ⟨b0a, b1a, s2.1, s3.1⟩

/-- A value in the pickle stream of `serialize`/`unserialize`. -/
inductive PVal where
  | pint : ℤ → PVal
  | pbool : Bool → PVal
  | pstr : String → PVal
  | prat : ℚ → PVal
  | pcuts : List Cut → PVal
deriving DecidableEq, Repr

/-- Serialization errors: `underflow` models `Unpickler` hitting the end of
the stream, `badField` a `TypeError` (e.g. `range(nb)` on a non-integer). -/
inductive SErr where
  | underflow
  | badField
deriving DecidableEq, Repr

/-- Pop one value off the stream (`u.load()`). -/
def nextVal : List PVal → Except SErr (PVal × List PVal)
  | [] => .error .underflow
  | v :: r => .ok (v, r)

/-- The field set `unserialize` decodes after the version: the object
construction around it (Units, Router_Bit, Board, spacing) is abstracted to
the raw loaded fields, which is all the version-handling claim depends on. -/
structure SessionRecord where
  metric : PVal
  numIncrements : PVal
  bitWidth : PVal
  bitDepth : PVal
  bitAngle : PVal
  boardsData : List (PVal × PVal × PVal × PVal × PVal)
  spType : PVal
  spPayload : PVal
  description : Option PVal
deriving DecidableEq, Repr

/-- The per-board loads of `unserialize`: `width`, `height`, `wood`,
`active`, `dheight` for each of `nb` boards. -/
def readBoards : ℕ → List PVal →
    Except SErr (List (PVal × PVal × PVal × PVal × PVal) × List PVal)
  | 0, ts => .ok ([], ts)
  | n + 1, ts => do
    let (w, ts) ← nextVal ts
    let (h, ts) ← nextVal ts
    let (wo, ts) ← nextVal ts
    let (ac, ts) ← nextVal ts
    let (dh, ts) ← nextVal ts
    let (rest, ts) ← readBoards n ts
    return ((w, h, wo, ac, dh) :: rest, ts)

/-- Everything `unserialize` does after loading the version: units, bit,
board count and boards, spacing type and payload, and (new format, non-Edit
branch only) the description. -/
def decodeBody (ts : List PVal) (newformat : Bool) : Except SErr SessionRecord := do
  let (metric, ts) ← nextVal ts
  let (ni, ts) ← nextVal ts
  let (w, ts) ← nextVal ts
  let (d, ts) ← nextVal ts
  let (a, ts) ← nextVal ts
  let (nbv, ts) ← nextVal ts
  match nbv with
  | .pint n => do
    let (boards, ts) ← readBoards n.toNat ts
    let (spt, ts) ← nextVal ts
    if spt = .pstr "Edit" then do
      let (cuts, _) ← nextVal ts
      return ⟨metric, ni, w, d, a, boards, spt, cuts, none⟩
    else do
      let (params, ts) ← nextVal ts
      if newformat then do
        let (desc, _) ← nextVal ts
        return ⟨metric, ni, w, d, a, boards, spt, params, some desc⟩
      else
        return ⟨metric, ni, w, d, a, boards, spt, params, none⟩
  | _ => .error .badField

/-- Embedding of `unserialize(s, config, newformat)`: load the version number (used only
for a debug print in the source), then decode the remaining fields. -/
def unserialize (tokens : List PVal) (newformat : Bool) :
    Except SErr SessionRecord :=
  match tokens with
  | [] => .error .underflow
  | _version :: ts => decodeBody ts newformat

/-- The coverage property claimed by the spec's §8 *Coverage* item: every
point of `[xmin, xmax]` is, within `precision`, inside some pass's interval
`[p - halfwidth + overhang, p + halfwidth - overhang]`. -/
def coversWithin (ps : List ℤ) (halfwidth overhang xmin xmax : ℚ) : Prop :=
  ∀ x : ℚ, xmin ≤ x → x ≤ xmax →
    ∃ p ∈ ps, (p : ℚ) - halfwidth + overhang - precision ≤ x ∧
      x ≤ (p : ℚ) + halfwidth - overhang + precision

/-- Modelled from the spec's words for claim C4 (for comparison with
`seedP0`): at a right-edge cut wider than half the bit, `p0` is offset
INWARD (toward smaller x) from `xmax` by `halfwidth - cutpass`. -/
def claimSeedP0 (boardWidth xmin xmax halfwidth cutpass : ℚ) : ℚ :=
  if xmax = boardWidth ∧ halfwidth < xmax - xmin then xmax - (halfwidth - cutpass)
  else (mathRound (xmax - halfwidth) : ℚ)

/-- A straight (angle 0) bit of width 24, depth 32, default gentleness 33. -/
def bit24 : RouterBit := mkBit 24 32 0 0 33

/-- A dovetail bit: width 24, depth 32, angle 10 with embedded tangent 1/4,
default gentleness. -/
def bitM : RouterBit := mkBit 24 32 10 (1/4) 33

/-- A 240-increment board with no extra thickness. -/
def boardD0 : BoardB := { width := 240, dheight := 0, active := true }

/-- A 240-increment reinforcement board of extra thickness 5. -/
def boardD5 : BoardB := { width := 240, dheight := 5, active := true }

/-- A 72-increment board with no extra thickness. -/
def board72 : BoardB := { width := 72, dheight := 0, active := true }

/-- A full stack of four active 72-increment boards. -/
def st0 : Stack := ⟨board72, board72, board72, board72⟩

/-- Initial spacing cuts for the `st0` example. -/
def cuts0 : List Cut := [⟨0, 12⟩, ⟨36, 60⟩]

/-- The stack produced by `cut_boards` on the `st0` example. -/
def stRes : Stack :=
  match cutBoards st0 bit24 cuts0 10 with
  | .ok s => s
  | .error _ => st0

theorem roundHalfEven_intCast (n : ℤ) : roundHalfEven (n : ℚ) = n := by
  simp [roundHalfEven]

theorem quantize4_grid {x : ℚ} (h : IsGrid x) : quantize4 x = x := by
  obtain ⟨n, hn⟩ := h
  rw [quantize4, hn, roundHalfEven_intCast, ← hn]
  ring

theorem IsGrid.add {x y : ℚ} (hx : IsGrid x) (hy : IsGrid y) : IsGrid (x + y) := by
  obtain ⟨n, hn⟩ := hx
  obtain ⟨m, hm⟩ := hy
  exact ⟨n + m, by push_cast; linarith⟩

theorem roundHalfDown_nonneg_eq_lower {x : ℚ} (h : 0 ≤ x) :
    roundHalfDown x = roundHalfLower x := by
  simp [roundHalfDown, roundHalfLower, h]

theorem reinit_width (b : RouterBit) : (reinit b).width = b.width := by
  rw [reinit]
  split <;> rfl

/-- A successful `makeRouterPasses` run has passed the final error check on
every returned pass. -/
theorem makeRouterPasses_ok_passBad {b : RouterBit} {bw : ℚ} {c : Cut}
    {fuel : ℕ} {ps : List ℤ} (h : makeRouterPasses b bw c fuel = .ok ps) :
    ∀ p ∈ ps, passBad c.xmin c.xmax (b.width_f / 2) bw p = false := by
  unfold makeRouterPasses at h
  split at h
  · exact absurd h (by simp)
  · split at h
    · exact absurd h (by simp)
    · split at h
      · exact absurd h (by simp)
      · rename_i hany
        injection h with h
        subst h
        intro p hp
        simpa using (List.any_eq_false.mp (Bool.of_not_eq_true hany)) p hp

/-- C2 (amended): after `reinit` via the constructor, the derived quantities
satisfy the recompute equations, with `round_half_down` meaning ties toward
ZERO (which agrees with "ties toward the lower integer" precisely on
nonnegative arguments, the regime of every setter-validated bit). -/
theorem bit_reinit_spec : ∀ w d a t g : ℚ,
    (mkBit w d a t g).width_f = w ∧
    (a ≤ 0 → (mkBit w d a t g).midline = w ∧ (mkBit w d a t g).gap = 0 ∧
      (mkBit w d a t g).overhang = 0) ∧
    (0 < a → (mkBit w d a t g).midline = ((roundHalfDown (w - d * t) : ℤ) : ℚ) ∧
      (mkBit w d a t g).gap = (w - d * t) - ((roundHalfDown (w - d * t) : ℤ) : ℚ) ∧
      (mkBit w d a t g).depth_0 = (w - ((roundHalfDown (w - d * t) : ℤ) : ℚ)) / t ∧
      (mkBit w d a t g).overhang = (w - ((roundHalfDown (w - d * t) : ℤ) : ℚ)) / 2) ∧
    (∀ x : ℚ, 0 ≤ x → roundHalfDown x = roundHalfLower x) := by
  intro w d a t g
  refine ⟨?_, ?_, ?_, fun x hx => roundHalfDown_nonneg_eq_lower hx⟩
  · rw [mkBit, reinit]
    split <;> rfl
  · intro ha
    rw [mkBit, reinit]
    split
    · next hlt => exact absurd hlt (by simpa using ha)
    · refine ⟨rfl, rfl, by simp⟩
  · intro ha
    rw [mkBit, reinit]
    split
    · exact ⟨rfl, rfl, rfl, rfl⟩
    · next hlt => exact absurd ha (by simpa using hlt)

/-- C2 witness: a dovetail bit with width 24, depth 32, embedded tangent
6/25: the recompute equations hold at a concrete input. -/
theorem bit_reinit_spec_w :
    (mkBit 24 32 14 (6/25) 33).midline
      = ((roundHalfDown ((24 : ℚ) - 32 * (6/25)) : ℤ) : ℚ) :=
  ((bit_reinit_spec 24 32 14 (6/25) 33).2.2.1 (by norm_num)).1

/-- C2 counterexample: at the (constructor-reachable) inputs width 1,
depth 5, embedded tangent 1/2, the rounding argument is the negative tie
-3/2; `ROUND_HALF_DOWN` (ties toward zero) gives midline -1, while the
claim's "ties toward the lower integer" would give -2. -/
theorem midline_tie_cex :
    (mkBit 1 5 1 (1/2) 33).midline
      ≠ ((roundHalfLower ((1 : ℚ) - 5 * (1/2)) : ℤ) : ℚ) := by decide

/-- C1 (amended): a successful `make_router_passes` does NOT guarantee
coverage of the cut; what it guarantees (its final error check) is
containment: every returned pass, with plain `halfwidth` (no overhang
correction), stays within `precision` of the cut on each side interior to
the board. -/
theorem passes_stay_in_cut : ∀ (b : RouterBit) (bw : ℚ) (c : Cut) (fuel : ℕ)
    (ps : List ℤ), makeRouterPasses b bw c fuel = .ok ps → ∀ p ∈ ps,
    (0 < c.xmin → c.xmin - ((p : ℚ) - b.width_f / 2) ≤ precision) ∧
    (c.xmax < bw → ((p : ℚ) + b.width_f / 2) - c.xmax ≤ precision) := by
  intro b bw c fuel ps h p hp
  have hb := makeRouterPasses_ok_passBad h p hp
  rw [passBad, Bool.or_eq_false_iff, Bool.and_eq_false_iff, Bool.and_eq_false_iff] at hb
  obtain ⟨hb1, hb2⟩ := hb
  constructor
  · intro hx
    rcases hb1 with h1 | h1
    · exact absurd hx (by simpa using h1)
    · simpa using le_of_not_lt (by simpa using h1)
  · intro hx
    rcases hb2 with h2 | h2
    · exact absurd hx (by simpa using h2)
    · simpa using le_of_not_lt (by simpa using h2)

/-- C1 witness: the spec's own example cut `[108, 132]` with the straight
width-24 bit yields the single pass 120, which stays within the cut. -/
theorem passes_stay_in_cut_w :
    (108 : ℚ) - (((120 : ℤ) : ℚ) - bit24.width_f / 2) ≤ precision :=
  (passes_stay_in_cut bit24 240 ⟨108, 132⟩ 10 [120] (by decide) 120
    (by simp)).1 (by norm_num)

/-- C1 counterexample: the cut `[100.3, 124.3]` with the straight width-24
bit passes validation and `make_router_passes` succeeds with an EMPTY pass
list (the seed pass overcuts the left boundary by 0.3 and is discarded), so
the pass intervals do not cover the cut. -/
theorem coverage_cex :
    makeRouterPasses bit24 240 ⟨1003/10, 1243/10⟩ 10 = .ok [] ∧
    ¬ coversWithin [] (bit24.width_f / 2) bit24.overhang (1003/10) (1243/10) := by
  refine ⟨by decide, fun hcov => ?_⟩
  obtain ⟨p, hp, _⟩ := hcov (1003/10) le_rfl (by norm_num)
  exact absurd hp (List.not_mem_nil p)

/-- C3 (amended): for a cut touching neither board edge (and a bit at least
two tolerances wide), every pass of a successful run lies within
`[0, board.width]`.  (Cuts touching an edge can produce passes outside the
board; see the counterexample.) -/
theorem passes_bounded_interior : ∀ (b : RouterBit) (bw : ℚ) (c : Cut)
    (fuel : ℕ) (ps : List ℤ), 0 < c.xmin → c.xmax < bw →
    2 * precision ≤ b.width_f → makeRouterPasses b bw c fuel = .ok ps →
    ∀ p ∈ ps, 0 ≤ (p : ℚ) ∧ (p : ℚ) ≤ bw := by
  intro b bw c fuel ps hx hX hw h p hp
  have hb := makeRouterPasses_ok_passBad h p hp
  rw [passBad, Bool.or_eq_false_iff, Bool.and_eq_false_iff, Bool.and_eq_false_iff] at hb
  obtain ⟨hb1, hb2⟩ := hb
  have h1 : c.xmin - ((p : ℚ) - b.width_f / 2) ≤ precision := by
    rcases hb1 with h1 | h1
    · exact absurd hx (by simpa using h1)
    · simpa using le_of_not_lt (by simpa using h1)
  have h2 : ((p : ℚ) + b.width_f / 2) - c.xmax ≤ precision := by
    rcases hb2 with h2 | h2
    · exact absurd hX (by simpa using h2)
    · simpa using le_of_not_lt (by simpa using h2)
  have hprec : (0 : ℚ) < precision := by norm_num [precision]
  constructor
  · nlinarith
  · nlinarith

/-- C3 witness: the interior cut `[108, 132]` yields pass 120 ∈ [0, 240]. -/
theorem passes_bounded_interior_w : 0 ≤ ((120 : ℤ) : ℚ) ∧ ((120 : ℤ) : ℚ) ≤ 240 :=
  passes_bounded_interior bit24 240 ⟨108, 132⟩ 10 [120] (by norm_num)
    (by norm_num) (by decide) (by decide) 120 (by simp)

/-- C3 counterexample: the right-edge cut `[200, 240]` on a width-240 board
succeeds with passes including 245, which lies outside `[0, 240]`. -/
theorem passes_bound_cex :
    makeRouterPasses bit24 240 ⟨200, 240⟩ 10 = .ok [212, 219, 226, 233, 245] ∧
    ¬ ((245 : ℚ) ≤ 240) := ⟨by decide, by norm_num⟩

/-- C4 (amended): at a right-edge cut wider than half the bit width, the
seed pass `p0` is offset OUTWARD (toward larger x, past the board edge) from
`xmax` by `halfwidth - cutpass`; in every other case
`p0 = round(xmax - halfwidth)`. -/
theorem seed_pass_spec : ∀ bw xmin xmax hw cp : ℚ,
    (xmax = bw ∧ hw < xmax - xmin →
      seedP0 bw xmin xmax hw cp = xmax + (hw - cp)) ∧
    (¬ (xmax = bw ∧ hw < xmax - xmin) →
      seedP0 bw xmin xmax hw cp = ((mathRound (xmax - hw) : ℤ) : ℚ)) := by
  intro bw xmin xmax hw cp
  constructor
  · intro h
    rw [seedP0, if_pos h]
    ring
  · intro h
    rw [seedP0, if_neg h]

/-- C4 witness: cut `[200, 240]` to the right edge of a width-240 board,
halfwidth 12, cutpass 7: the seed is `240 + (12 - 7) = 245`. -/
theorem seed_pass_spec_w : seedP0 240 200 240 12 7 = 240 + (12 - 7) :=
  (seed_pass_spec 240 200 240 12 7).1 ⟨rfl, by norm_num⟩

/-- C4 counterexample: at the same input the claim's inward offset predicts
235, but the code computes 245. -/
theorem seed_pass_cex :
    seedP0 240 200 240 12 7 = 245 ∧ claimSeedP0 240 200 240 12 7 = 235 ∧
    (245 : ℚ) ≠ 235 := ⟨by decide, by decide, by norm_num⟩

/-- C5 (amended): the cut `[0, 10]` with the width-24 bit does NOT raise:
because `xmin = 0` the validator skips the bit-width compatibility check and
the run succeeds, returning the single (negative!) pass -2. -/
theorem left_edge_cut_ok :
    makeRouterPasses bit24 240 ⟨0, 10⟩ 10 = .ok [-2] := by decide

/-- C5 counterexample: the run on cut `[0, 10]` with the width-24 bit ends
in `.ok`, not in a `GeometryError`. -/
theorem left_edge_cut_cex :
    (makeRouterPasses bit24 240 ⟨0, 10⟩ 10).isOk = true := by decide

/-- C6 (amended): for a single strictly interior cut on a board with
`dheight = 0`, with nonnegative propagation offset `width_f - midline` and
the cut bound / offset on the 0.0001 quantization grid, two applications of
`adjoining_cuts` reproduce a single cut whose bounds differ from the
original's by at most `2 * (width_f - midline)` (the `xmin` is in fact
reproduced exactly). -/
theorem adjoining_twice_spec : ∀ (b : RouterBit) (bd : BoardB) (c : Cut),
    bd.dheight = 0 → 0 < c.xmin → c.xmin < c.xmax → c.xmax < bd.width →
    0 ≤ b.width_f - b.midline → IsGrid c.xmin →
    IsGrid (b.width_f - b.midline) →
    (adjoiningCuts [c] b bd).bind (fun l => adjoiningCuts l b bd)
      = some [⟨c.xmin, min bd.width (max (b.width_f - b.midline) c.xmax)⟩] ∧
    |c.xmin - c.xmin| ≤ 2 * (b.width_f - b.midline) ∧
    |min bd.width (max (b.width_f - b.midline) c.xmax) - c.xmax|
      ≤ 2 * (b.width_f - b.midline) := by
  intro b bd c hdh hx hxx hX hoff hg1 hg2
  have hq : quantize4 (c.xmin + (b.width_f - b.midline))
      = c.xmin + (b.width_f - b.midline) := quantize4_grid (hg1.add hg2)
  have hxmax : 0 < c.xmax := lt_trans hx hxx
  have e1 : adjoiningCuts [c] b bd
      = some [⟨0, c.xmin + (b.width_f - b.midline)⟩,
              ⟨max 0 (c.xmax - (b.width_f - b.midline)), bd.width⟩] := by
    rw [adjoiningCuts]
    simp only [hdh, List.zip_nil_right, List.map_nil, lastCut, sub_zero,
      add_zero, min_self]
    rw [if_pos hx, if_pos (by linarith : (0 : ℚ) ≤ c.xmin + (b.width_f - b.midline)),
      if_pos hX, if_pos (by linarith : (0 : ℚ) ≤ bd.width - (c.xmax - (b.width_f - b.midline)))]
    simp [hq]
  have e2 : adjoiningCuts
      [⟨0, c.xmin + (b.width_f - b.midline)⟩,
       ⟨max 0 (c.xmax - (b.width_f - b.midline)), bd.width⟩] b bd
      = some [⟨c.xmin, min bd.width (max (b.width_f - b.midline) c.xmax)⟩] := by
    rw [adjoiningCuts]
    simp only [hdh, List.zip_cons_cons, List.zip_nil_right, List.map_cons,
      List.map_nil, lastCut, sub_zero, add_zero]
    rw [if_neg (by norm_num : ¬ (0 : ℚ) < 0), if_neg (by simp : ¬ bd.width < bd.width)]
    have hm : max 0 (c.xmax - (b.width_f - b.midline)) + (b.width_f - b.midline)
        = max (b.width_f - b.midline) c.xmax := by
      rw [← max_add_add_right]
      congr 1 <;> ring
    have hmx : max 0 c.xmin = c.xmin := max_eq_right hx.le
    simp [hm, hmx, add_sub_cancel_right]
  refine ⟨?_, ?_, ?_⟩
  · rw [e1, Option.some_bind, e2]
  · simpa using by linarith
  · rcases le_total (b.width_f - b.midline) c.xmax with hc | hc
    · rw [max_eq_right hc, min_eq_right hX.le]
      simpa using by linarith
    · rw [max_eq_left hc]
      rcases le_total (b.width_f - b.midline) bd.width with hbw | hbw
      · rw [min_eq_right hbw]
        rw [abs_le]
        constructor <;> linarith
      · rw [min_eq_left hbw]
        rw [abs_le]
        constructor <;> linarith

/-- C6 witness: the interior cut `[4, 100]` with the straight width-24 bit
(offset 0) on a plain width-240 board is reproduced exactly by two
applications of `adjoining_cuts`. -/
theorem adjoining_twice_spec_w :
    (adjoiningCuts [⟨4, 100⟩] bit24 boardD0).bind
        (fun l => adjoiningCuts l bit24 boardD0)
      = some [⟨(4 : ℚ), min boardD0.width (max (bit24.width_f - bit24.midline) 100)⟩] :=
  (adjoining_twice_spec bit24 boardD0 ⟨4, 100⟩ rfl (by norm_num) (by norm_num)
    (by decide) (by decide) ⟨40000, by norm_num⟩ ⟨0, by decide⟩).1

/-- C6 counterexample: on a board with `dheight = 5` the same bit and the
interior cut `[4, 100]` come back as `[0, 100]` after two applications: the
`xmin` moves by 4, which exceeds the claimed bound
`2 * (width - midline) = 0`. -/
theorem adjoining_twice_cex :
    (adjoiningCuts [⟨4, 100⟩] bit24 boardD5).bind
        (fun l => adjoiningCuts l bit24 boardD5) = some [⟨0, 100⟩] ∧
    ¬ (|(0 : ℚ) - 4| ≤ 2 * (bit24.width_f - bit24.midline)) := by
  constructor
  · decide
  · rw [show bit24.width_f - bit24.midline = 0 from by decide]
    norm_num

/-- C7 (amended): when boards[3] AND boards[2] are both active, a successful
`cut_boards` runs BOTH reinforcement stages, in order: the double-double
stage consumes the initial cuts, the double stage consumes the double-double
stage's output `l3` (it is not skipped), and the bottom board consumes the
double stage's output `l2`. -/
theorem cut_boards_pipeline : ∀ (st : Stack) (b : RouterBit) (cuts : List Cut)
    (fuel : ℕ) (out : Stack), st.b3.active = true → st.b2.active = true →
    cutBoards st b cuts fuel = .ok out →
    ∃ b0a t3 b3t l3 b3b t2 b2t l2 b2b top1 b1a,
      setBottomCuts b st.b0 cuts fuel = .ok b0a ∧
      adjoiningCuts cuts b b0a = some t3 ∧
      setTopCuts b st.b3 t3 fuel = .ok b3t ∧
      adjoiningCuts t3 b b3t = some l3 ∧
      setBottomCuts b b3t l3 fuel = .ok b3b ∧
      adjoiningCuts l3 b b0a = some t2 ∧
      setTopCuts b st.b2 t2 fuel = .ok b2t ∧
      adjoiningCuts t2 b b2t = some l2 ∧
      setBottomCuts b b2t l2 fuel = .ok b2b ∧
      adjoiningCuts l2 b st.b1 = some top1 ∧
      setTopCuts b st.b1 top1 fuel = .ok b1a ∧
      out = ⟨b0a, b1a, b2b, b3b⟩ := by
  intro st b cuts fuel out h3 h2 h
  rw [cutBoards] at h
  split at h
  · exact absurd h (by simp)
  · rename_i b0a e0
    rw [doubleStage, if_pos h3] at h
    split at h
    · exact absurd h (by simp)
    · rename_i s3 e3
      rw [doubleStage, if_pos h2] at h
      split at h
      · exact absurd h (by simp)
      · rename_i s2 e2
        split at h
        · exact absurd h (by simp)
        · rename_i top1 etop
          split at h
          · exact absurd h (by simp)
          · rename_i b1a e1
            injection h with h
            split at e3
            · exact absurd e3 (by simp)
            · rename_i t3 et3
              split at e3
              · exact absurd e3 (by simp)
              · rename_i b3t eb3t
                split at e3
                · exact absurd e3 (by simp)
                · rename_i l3 el3
                  split at e3
                  · exact absurd e3 (by simp)
                  · rename_i b3b eb3b
                    injection e3 with e3
                    split at e2
                    · exact absurd e2 (by simp)
                    · rename_i t2 et2
                      split at e2
                      · exact absurd e2 (by simp)
                      · rename_i b2t eb2t
                        split at e2
                        · exact absurd e2 (by simp)
                        · rename_i l2 el2
                          split at e2
                          · exact absurd e2 (by simp)
                          · rename_i b2b eb2b
                            injection e2 with e2
                            subst e3 e2
                            exact ⟨b0a, t3, b3t, l3, b3b, t2, b2t, l2, b2b,
                              top1, b1a, e0, et3, eb3t, el3, eb3b, et2, eb2t,
                              el2, eb2b, etop, e1, h.symm⟩

/-- C7 witness: on the all-active 72-wide four-board stack with initial cuts
`[0,12], [36,60]`, the pipeline succeeds and boards[2] received its top cuts
(propagated from boards[3]'s output). -/
theorem cut_boards_pipeline_w : (stRes.b2.topCuts).isSome = true := by
  obtain ⟨b0a, t3, b3t, l3, b3b, t2, b2t, l2, b2b, top1, b1a, hch⟩ :=
    cut_boards_pipeline st0 bit24 cuts0 10 stRes rfl rfl (by decide)
  decide

/-- C7 counterexample: with boards[3] AND boards[2] both active, the
boards[2] step is NOT skipped: its top cuts go from `none` to the cuts
propagated through boards[3]. -/
theorem cut_boards_cex :
    st0.b3.active = true ∧ st0.b2.active = true ∧ st0.b2.topCuts = none ∧
    cutBoards st0 bit24 cuts0 10 = .ok stRes ∧
    stRes.b2.topCuts = some [(⟨12, 36⟩, [24]), (⟨60, 72⟩, [72])] := by
  refine ⟨rfl, rfl, rfl, by decide, by decide⟩

/-- C8 (amended): the width, depth and angle setters either raise
`Router_Exception` leaving the bit unchanged, or replace their field and
immediately recompute every derived quantity via `reinit`.  The gentleness
setter leaves the bit unchanged on every failure as well, but one of its
failure modes is NOT a `GeometryError`: after validation passes, the
`Decimal(s)` conversion of the raw string can escape uncaught (see the
counterexample); when that conversion succeeds the setter replaces the field
and recomputes. -/
theorem setters_atomic : ∀ (b : RouterBit) (m : Bool) (p q : Option ℚ) (t : ℚ),
    ((setWidthS b m p).2 = true → (setWidthS b m p).1 = b) ∧
    ((setWidthS b m p).2 = false →
      ∃ w, (setWidthS b m p).1 = reinit { b with width := w }) ∧
    ((setDepthS b p).2 = true → (setDepthS b p).1 = b) ∧
    ((setDepthS b p).2 = false →
      ∃ d, (setDepthS b p).1 = reinit { b with depth := d }) ∧
    ((setAngleS b p t).2 = true → (setAngleS b p t).1 = b) ∧
    ((setAngleS b p t).2 = false →
      ∃ a, (setAngleS b p t).1 = reinit { b with angle := a, tanA := t }) ∧
    ((setGentleS b p q).2 = .geomErr → (setGentleS b p q).1 = b) ∧
    ((setGentleS b p q).2 = .otherErr → (setGentleS b p q).1 = b) ∧
    ((setGentleS b p q).2 = .ok →
      ∃ g, (setGentleS b p q).1 = reinit { b with bit_gentle := g }) := by
  intro b m p q t
  refine ⟨?_, ?_, ?_, ?_, ?_, ?_, ?_, ?_, ?_⟩
  · cases p with
    | none => intro _; rfl
    | some v =>
      simp only [setWidthS]
      split_ifs <;> intro h
      · rfl
      · rfl
      · exact absurd h (by simp)
  · cases p with
    | none => intro h; simp [setWidthS] at h
    | some v =>
      simp only [setWidthS]
      split_ifs <;> intro h
      · exact absurd h (by simp)
      · exact absurd h (by simp)
      · exact ⟨_, rfl⟩
  · cases p with
    | none => intro _; rfl
    | some v =>
      simp only [setDepthS]
      split_ifs <;> intro h
      · rfl
      · rfl
      · exact absurd h (by simp)
  · cases p with
    | none => intro h; simp [setDepthS] at h
    | some v =>
      simp only [setDepthS]
      split_ifs <;> intro h
      · exact absurd h (by simp)
      · exact absurd h (by simp)
      · exact ⟨_, rfl⟩
  · cases p with
    | none => intro _; rfl
    | some v =>
      simp only [setAngleS]
      split_ifs <;> intro h
      · rfl
      · rfl
      · exact absurd h (by simp)
  · cases p with
    | none => intro h; simp [setAngleS] at h
    | some v =>
      simp only [setAngleS]
      split_ifs <;> intro h
      · exact absurd h (by simp)
      · exact absurd h (by simp)
      · exact ⟨_, rfl⟩
  · cases p with
    | none => intro _; rfl
    | some v =>
      simp only [setGentleS]
      split_ifs
      · intro _; rfl
      · cases q with
        | none => intro _; rfl
        | some d => intro h; exact absurd h (by simp)
  · cases p with
    | none => intro h; simp [setGentleS] at h
    | some v =>
      simp only [setGentleS]
      split_ifs
      · intro h; exact absurd h (by simp)
      · cases q with
        | none => intro _; rfl
        | some d => intro h; exact absurd h (by simp)
  · cases p with
    | none => intro h; simp [setGentleS] at h
    | some v =>
      simp only [setGentleS]
      split_ifs
      · intro h; exact absurd h (by simp)
      · cases q with
        | none => intro h; exact absurd h (by simp)
        | some d => intro _; exact ⟨_, rfl⟩

/-- C8 witness: a failing parse leaves the width setter's state unchanged. -/
theorem setters_atomic_w : (setWidthS bit24 false none).1 = bit24 :=
  (setters_atomic bit24 false none none 0).1 rfl

/-- C8 counterexample: the gentleness setter on a fractional string such as
"1 1/2" — float parse 3/2, which passes the 1..100 validation — escapes with
an uncaught exception that is not a `Router_Exception` (the `Decimal(s)`
conversion of the raw string fails), so the setter neither raises a
`GeometryError` nor replaces the field and recomputes. -/
theorem set_gentle_cex :
    ¬ ((3 : ℚ)/2 < 1 ∨ (100 : ℚ) < 3/2) ∧
    setGentleS bit24 (some (3/2)) none = (bit24, .otherErr) := by
  constructor
  · norm_num
  · rw [setGentleS, if_neg (by norm_num)]

/-- C9 (amended): `unserialize` reads the leading version number but never
inspects it: the decode result is the same for every version value, so
unknown/future versions are not rejected. -/
theorem unserialize_ignores_version : ∀ (v1 v2 : PVal) (ts : List PVal)
    (nf : Bool), unserialize (v1 :: ts) nf = unserialize (v2 :: ts) nf :=
  fun _ _ _ _ => rfl

/-- C9 counterexample: a record carrying the unmistakably future version
"9999.future" is decoded successfully instead of being rejected. -/
theorem unserialize_version_cex :
    unserialize [.pstr "9999.future", .pbool false, .pint 32, .pint 24,
        .pint 32, .pint 0, .pint 0, .pstr "Equa", .prat 0, .pstr "saved"] true
      = .ok ⟨.pbool false, .pint 32, .pint 24, .pint 32, .pint 0, [],
             .pstr "Equa", .prat 0, some (.pstr "saved")⟩ := rfl

/-- C10 (amended): in metric mode a successfully stored width is the parsed
value scaled by `mm_per_inch = 25.4` when it is ≤ 1, and the parsed value
itself otherwise.  (For a straight bit the scaled value 25.4 is rejected by
the even-increment check, so "1" raises instead of storing; see the
counterexample.) -/
theorem metric_width_scaling : ∀ (b : RouterBit) (v : ℚ) (b2 : RouterBit),
    setWidthS b true (some v) = (b2, false) →
    b2.width = if v ≤ 1 then v * (127/5) else v := by
  intro b v b2 h
  simp only [setWidthS] at h
  split_ifs at h
  · exact absurd h (by simp)
  · exact absurd h (by simp)
  · have hb : b2 = reinit { b with width := widthFromParse true v } := by
      have := congrArg Prod.fst h
      simpa using this.symm
    rw [hb, reinit_width]
    simp [widthFromParse]

/-- C10 witness: for a dovetail (angle 10) metric bit, setting width from
the parse result 1 stores `1 * 25.4`. -/
theorem metric_width_scaling_w :
    ((setWidthS bitM true (some 1)).1).width = if (1 : ℚ) ≤ 1 then 1 * (127/5) else 1 :=
  metric_width_scaling bitM 1 (setWidthS bitM true (some 1)).1 rfl

/-- C10 counterexample: for the default straight bit, setting width from the
string "1" in metric mode raises (25.4 is not an even increment count) and
stores nothing, contrary to the claim that it stores 25.4. -/
theorem metric_width_cex :
    (setWidthS bit24 true (some 1)).2 = true ∧
    (setWidthS bit24 true (some 1)).1 = bit24 := ⟨by decide, by decide⟩

end RouterJig
